import Mathlib

set_option maxRecDepth 8000

/-!
Shallow embedding of the nornir-salt result-processing core:
`nornir_salt/plugins/functions/ResultSerializer.py` and
`nornir_salt/plugins/functions/TabulateFormatter.py`.

Python values that flow through these functions are modelled by the
inductive `Value`; Python dicts are association lists preserving
insertion order (Python dicts are insertion ordered and have unique
keys).  Python exceptions raised by the code (KeyError, TypeError,
AttributeError) are modelled by `Except PyErr`.
-/

inductive Value : Type where
  | none : Value
  | bool : Bool → Value
  | int : Int → Value
  | str : String → Value
  | list : List Value → Value
  | dict : List (String × Value) → Value
  deriving Repr

/-- `d[k]` lookup on an insertion-ordered dict (first matching key). -/
def dGet (d : List (String × Value)) (k : String) : Option Value :=
  match d with
  | [] => Option.none
  | p :: rest => if p.1 == k then some p.2 else dGet rest k

/-- `k in d` on a dict. -/
def dHasKey (d : List (String × Value)) (k : String) : Bool :=
  d.any (fun p => p.1 == k)

/-- Python `d[k] = v`: overwrite in place if the key exists (keeping its
position), otherwise append at the end. -/
def dSet (d : List (String × Value)) (k : String) (v : Value) :
    List (String × Value) :=
  if dHasKey d k then d.map (fun p => if p.1 == k then (k, v) else p)
  else d ++ [(k, v)]

/-- Removing a key, as `d.pop(k)` leaves the dict (the popped value is
read separately with `dGet`). -/
def dErase (d : List (String × Value)) (k : String) :
    List (String × Value) :=
  d.filter (fun p => p.1 != k)

/-- Python `{**a, **b}`: keys of `a` in order (values overridden by `b`
where present), then keys of `b` not in `a`, in order. -/
def dMerge (a b : List (String × Value)) : List (String × Value) :=
  (a.map (fun p => match dGet b p.1 with
    | some v => (p.1, v)
    | Option.none => p)) ++ b.filter (fun p => !(dHasKey a p.1))

/-- Python truthiness of a value. -/
def Value.isTruthy : Value → Bool
  | .none => false
  | .bool b => b
  | .int n => n != 0
  | .str s => s != ""
  | .list xs => !xs.isEmpty
  | .dict d => !d.isEmpty

/-- Python `s.startswith(pre)`. -/
def pyStartsWith (s pre : String) : Bool :=
  pre.toList.isPrefixOf s.toList

/-- Substring occurrence at any position of a character list. -/
def containsL (needle : List Char) : List Char → Bool
  | [] => needle.isEmpty
  | c :: rest => needle.isPrefixOf (c :: rest) || containsL needle rest

/-- `needle in hay` on strings: Python substring containment. -/
def substrB (needle hay : String) : Bool :=
  needle.toList.isEmpty || containsL needle.toList hay.toList

/-- Splitting on a single-character separator, Python `split(sep)`
style: every occurrence of the separator ends a segment; `n`
occurrences give `n + 1` segments.  The source only ever splits on the
one-character separator `","`. -/
def splitOnChar (sep : Char) : List Char → List (List Char)
  | [] => [[]]
  | c :: rest =>
    if c == sep then [] :: splitOnChar sep rest
    else
      match splitOnChar sep rest with
      | [] => [[c]]
      | seg :: segs => (c :: seg) :: segs

/-- Python `s.split(sep)` for a one-character separator. -/
def pySplitOn (s : String) (sep : Char) : List String :=
  (splitOnChar sep s.toList).map (fun l => String.mk l)

/-- Python whitespace for `strip()`. -/
def isSpaceC (c : Char) : Bool :=
  c == ' ' || c == Char.ofNat 9 || c == Char.ofNat 10 || c == Char.ofNat 11 ||
    c == Char.ofNat 12 || c == Char.ofNat 13

/-- Python `s.strip()`: drop leading and trailing whitespace. -/
def pyStrip (s : String) : String :=
  String.mk (((s.toList.dropWhile isSpaceC).reverse.dropWhile isSpaceC).reverse)

/-- Python `repr` of a string: the text between single quotes
(`Char.ofNat 39`). -/
def pyQuote (s : String) : String :=
  String.singleton (Char.ofNat 39) ++ s ++ String.singleton (Char.ofNat 39)

mutual

/-- Python `repr` of a value (used by `str` on containers). -/
def pyRepr : Value → String
  | .none => "None"
  | .bool true => "True"
  | .bool false => "False"
  | .int n => toString n
  | .str s => pyQuote s
  | .list xs => "[" ++ pyReprList xs ++ "]"
  | .dict d => "\x7b" ++ pyReprDict d ++ "\x7d"

/-- Comma-joined `repr`s of list elements. -/
def pyReprList : List Value → String
  | [] => ""
  | [x] => pyRepr x
  | x :: xs => pyRepr x ++ ", " ++ pyReprList xs

/-- Comma-joined `repr`s of dict items. -/
def pyReprDict : List (String × Value) → String
  | [] => ""
  | [p] => pyQuote p.1 ++ ": " ++ pyRepr p.2
  | p :: ps => pyQuote p.1 ++ ": " ++ pyRepr p.2 ++ ", " ++ pyReprDict ps

end

/-- Python `str(v)`: identity on strings, `"None"` for `None`, `repr`
rendering otherwise. -/
def pyStr : Value → String
  | .str s => s
  | v => pyRepr v

/-!
## ResultSerializer.py
-/

/-- One task's result on one host (`nornir.core.task.Result`), with the
fields the serializer reads: `name`, `result`, `changed`, `failed`,
`diff`, `exception`, and the host's data mapping `host` (reached in the
source as `i.host`, queried with `i.host.get("exception")`). -/
structure TaskOutcome : Type where
  name : String
  result : Value
  changed : Bool
  failed : Bool
  diff : String
  exception : Value
  host : List (String × Value)

/-- An `AggregatedResult`: insertion-ordered mapping from host name to
that host's ordered task results (host keys are unique, as in a dict). -/
abbrev AggRes : Type := List (String × List TaskOutcome)

/-- Source: `skip_tasks` — list of known group tasks to skip. -/
def skip_tasks : List String := ["netmiko_send_commands"]

/-- The two skip rules at the top of both serializer loops: the name
starts with `"_"`, or the name is in `skip_tasks`. -/
def skipTask (name : String) : Bool :=
  pyStartsWith name "_" || skip_tasks.contains name

/-- `i.host.get("exception")` when it is truthy (the `elif
i.host.get("exception"):` guard); `none` when the key is absent or the
value is falsy. -/
def hostExc (i : TaskOutcome) : Option Value :=
  match dGet i.host "exception" with
  | some v => if v.isTruthy then some v else Option.none
  | Option.none => Option.none

/-- The detail fields shared by both output shapes when `add_details`
is true: `diff`, `changed`, `result`, `failed` (true if the task's own
exception is truthy, else the task's failed flag), `exception` as
`str(i.exception)`. -/
def detailFields (i : TaskOutcome) : List (String × Value) :=
  [("diff", .str i.diff),
   ("changed", .bool i.changed),
   ("result", i.result),
   ("failed", .bool (if i.exception.isTruthy then true else i.failed)),
   ("exception", .str (pyStr i.exception))]

/-- The `(task name, value)` pair one task contributes to the dict
shape (`ret[hostname][i.name] = ...`), or `none` when the task is
skipped. -/
def taskPairDict (add_details : Bool) (i : TaskOutcome) :
    Option (String × Value) :=
  if skipTask i.name then Option.none
  else match hostExc i with
  | some v => some (i.name, .dict [("exception", v)])
  | Option.none =>
    if add_details then some (i.name, .dict (detailFields i))
    else some (i.name, i.result)

/-- The record one task contributes to the list shape
(`ret[hostname].append({...})`), or `none` when the task is skipped. -/
def taskRecList (add_details : Bool) (i : TaskOutcome) :
    Option (List (String × Value)) :=
  if skipTask i.name then Option.none
  else match hostExc i with
  | some v => some [("name", .str i.name), ("exception", v)]
  | Option.none =>
    if add_details then some (("name", .str i.name) :: detailFields i)
    else some [("name", .str i.name), ("result", i.result)]

/-- One host's dict in the `to_dict=True` branch: start from `{}` and
assign `ret[hostname][i.name] = ...` task by task. -/
def serializeHostDict (add_details : Bool) (outs : List TaskOutcome) :
    List (String × Value) :=
  outs.foldl (fun acc i =>
    match taskPairDict add_details i with
    | some p => dSet acc p.1 p.2
    | Option.none => acc) []

/-- One host's list in the `to_dict=False` branch: start from `[]` and
append each task's record. -/
def serializeHostList (add_details : Bool) (outs : List TaskOutcome) :
    List (List (String × Value)) :=
  outs.filterMap (taskRecList add_details)

/-- Source: `ResultSerializer(nr_results, add_details=False,
to_dict=True)`. -/
def ResultSerializer (nr_results : AggRes) (add_details : Bool)
    (to_dict : Bool) : Value :=
  if to_dict then
    .dict (nr_results.map (fun p => (p.1, .dict (serializeHostDict add_details p.2))))
  else
    .dict (nr_results.map (fun p =>
      (p.1, .list ((serializeHostList add_details p.2).map Value.dict))))

/-!
## TabulateFormatter.py

Python exceptions the function can raise are modelled with `PyErr`;
the external call `tabulate_lib.tabulate(result_to_tabulate,
**tabulate)` is modelled as the opaque outcome `.rendered data cfg`.
`HAS_TABULATE` is taken to be true (the import succeeded).

In-place mutation of caller-owned objects (`res.pop("result")` on the
records of a caller-supplied list, `tabulate.setdefault("headers",
headers)` on a caller-supplied configuration dict) is made observable
by returning, next to the output, the post-call contents of the
caller's record list and configuration dict.
-/

inductive PyErr : Type where
  | keyError : String → PyErr
  | typeError : PyErr
  | attrError : PyErr
  deriving Repr

/-- The `result` argument: an `AggregatedResult` or any plain value
(the `isinstance` checks distinguish them). -/
inductive TFInput : Type where
  | agg : AggRes → TFInput
  | val : Value → TFInput

/-- What the call returns: the original input unchanged (the
log-and-return branches and `tabulate == False`), or the final
`tabulate_lib.tabulate(data, **cfg)` call. -/
inductive TFOutput : Type where
  | passthrough : TFOutput
  | rendered : Value → List (String × Value) → TFOutput
  deriving Repr

/-- Result of a non-raising call: the output plus the post-call
contents of the caller's record list (when `result` was a list; `[]`
otherwise) and of the caller's configuration dict (when `tabulate` was
a dict; `[]` otherwise). -/
structure TFResult : Type where
  output : TFOutput
  recsAfter : List Value
  cfgAfter : List (String × Value)
  deriving Repr

/-- `tabulate == True` (Python `==`: also `1 == True`). -/
def pyEqTrue : Value → Bool
  | .bool b => b
  | .int n => n == 1
  | _ => false

/-- `tabulate == False` (Python `==`: also `0 == False`). -/
def pyEqFalse : Value → Bool
  | .bool b => !b
  | .int n => n == 0
  | _ => false

/-- `v == "lit"` for a string literal. -/
def pyEqStr (v : Value) (lit : String) : Bool :=
  match v with
  | .str s => s == lit
  | _ => false

/-- The comma-split normalization applied to `headers` and
`headers_exclude`: a string containing `","` becomes the list of its
stripped comma-separated parts; everything else passes through. -/
def normalizeCommas : Value → Value
  | .str s =>
    if substrB "," s then .list ((pySplitOn s (Char.ofNat 44)).map (fun i => .str (pyStrip i)))
    else .str s
  | v => v

/-- One iteration of the `extend` loop body on `res`: checks
`res["result"]` (KeyError when missing, TypeError when `res` is not a
dict — e.g. a hostname string from iterating a dict), expands a
list-valued result into `{**res, **i}` / `{**res, "result": i}` rows
(after `res.pop("result")`), else keeps `res` as one row.  Returns the
contributed rows and the state of `res` after the iteration. -/
def extendStep (res : Value) : Except PyErr (List Value × Value) :=
  match res with
  | .dict d =>
    match dGet d "result" with
    | Option.none => .error (.keyError "result")
    | some v =>
      match v with
      | .list xs =>
        let d2 := dErase d "result"
        .ok (xs.map (fun i =>
          match i with
          | .dict di => Value.dict (dMerge d2 di)
          | _ => Value.dict (dMerge d2 [("result", i)])), .dict d2)
      | _ => .ok ([res], res)
  | _ => .error .typeError

/-- The whole `extend` loop over the iterated items, threading the
mutated items: returns (`table_`, post-loop items). -/
def extendFold : List Value → Except PyErr (List Value × List Value)
  | [] => .ok ([], [])
  | r :: rest =>
    match extendStep r with
    | .error e => .error e
    | .ok (rows, r2) =>
      match extendFold rest with
      | .error e => .error e
      | .ok (rows2, rest2) => .ok (rows ++ rows2, r2 :: rest2)

/-- Python iteration over `result_to_tabulate`: a list yields its
elements, a dict yields its keys (as strings). -/
def pyIterate : Value → List Value
  | .list xs => xs
  | .dict d => d.map (fun p => Value.str p.1)
  | _ => []

/-- `k not in headers_exclude`: substring test on a string, `==`
membership on a list, key membership on a dict; other container types
raise TypeError. -/
def pyNotIn (k : String) : Value → Except PyErr Bool
  | .str s => .ok (!substrB k s)
  | .list xs => .ok (!xs.any (fun e =>
      match e with
      | .str s => s == k
      | _ => false))
  | .dict d => .ok (!dHasKey d k)
  | _ => .error .typeError

/-- `{k: v for k, v in res.items() if k not in headers_exclude}`. -/
def filterKeysEx (hx : Value) : List (String × Value) →
    Except PyErr (List (String × Value))
  | [] => .ok []
  | p :: rest =>
    match pyNotIn p.1 hx with
    | .error e => .error e
    | .ok keep =>
      match filterKeysEx hx rest with
      | .error e => .error e
      | .ok rest2 => .ok (if keep then p :: rest2 else rest2)

/-- One item of the exclusion comprehension: `res.items()` requires a
dict (a hostname string from iterating a dict raises AttributeError). -/
def excludeItem (hx : Value) (item : Value) : Except PyErr Value :=
  match item with
  | .dict d =>
    match filterKeysEx hx d with
    | .error e => .error e
    | .ok d2 => .ok (.dict d2)
  | _ => .error .attrError

/-- The exclusion comprehension over all iterated items. -/
def excludeItems (hx : Value) : List Value → Except PyErr (List Value)
  | [] => .ok []
  | x :: xs =>
    match excludeItem hx x with
    | .error e => .error e
    | .ok y =>
      match excludeItems hx xs with
      | .error e => .error e
      | .ok ys => .ok (y :: ys)

/-- The cells `item.get(i, "")` of one row, over the header entries;
an unhashable header entry (list/dict) raises TypeError, any other
non-string entry just misses (dict keys are strings). -/
def cellsOf (d : List (String × Value)) : List Value →
    Except PyErr (List Value)
  | [] => .ok []
  | h :: hs =>
    match (match h with
           | .str k => .ok ((dGet d k).getD (.str ""))
           | .list _ => .error .typeError
           | .dict _ => .error .typeError
           | _ => .ok (.str "") : Except PyErr Value) with
    | .error e => .error e
    | .ok c =>
      match cellsOf d hs with
      | .error e => .error e
      | .ok cs => .ok (c :: cs)

/-- `[item.get(i, "") for i in headers]` for one item; `item.get`
requires a dict (a hostname string raises AttributeError). -/
def rowOfItem (hs : List Value) (item : Value) : Except PyErr Value :=
  match item with
  | .dict d =>
    match cellsOf d hs with
    | .error e => .error e
    | .ok cells => .ok (.list cells)
  | _ => .error .attrError

/-- The row-conversion comprehension over all items. -/
def rowsOfItems (hs : List Value) : List Value → Except PyErr (List Value)
  | [] => .ok []
  | x :: xs =>
    match rowOfItem hs x with
    | .error e => .error e
    | .ok y =>
      match rowsOfItems hs xs with
      | .error e => .error e
      | .ok ys => .ok (y :: ys)

/-- The `brief` preset configuration. -/
def briefCfg : List (String × Value) :=
  [("tablefmt", .str "grid"),
   ("showindex", .bool true),
   ("headers", .list [.str "host", .str "name", .str "result", .str "exception"])]

/-- The `if headers_exclude:` filtering stage: when the (normalized)
`headers_exclude` is truthy, rebuild the iterated items with excluded
keys removed; otherwise keep `result_to_tabulate` as it is. -/
def excludeStage (hxN : Value) (rtt1 : Value) : Except PyErr Value :=
  if hxN.isTruthy then
    match excludeItems hxN (pyIterate rtt1) with
    | .error e => .error e
    | .ok items => .ok (.list items)
  else .ok rtt1

/-- The `if isinstance(tabulate["headers"], list):` row-conversion
stage: when the configuration's `headers` is a list, convert every
item to a positional row of `item.get(i, "")` cells; otherwise keep
`result_to_tabulate` as it is. -/
def rowsStage (cfg : List (String × Value)) (rtt2 : Value) :
    Except PyErr Value :=
  match dGet cfg "headers" with
  | some (.list hs) =>
    match rowsOfItems hs (pyIterate rtt2) with
    | .error e => .error e
    | .ok rows => .ok (.list rows)
  | _ => .ok rtt2

/-- Source: `TabulateFormatter(result, tabulate=True, headers="keys",
headers_exclude=[])`, with the `tabulate`, `headers` and
`headers_exclude` arguments carried as `Value`s as in Python. -/
def TabulateFormatter (result : TFInput) (tabulate : Value)
    (headers : Value) (headers_exclude : Value) : Except PyErr TFResult :=
  let origRecs : List Value :=
    match result with
    | .val (.list recs) => recs
    | _ => []
  let origCfg : List (String × Value) :=
    match tabulate with
    | .dict d => d
    | _ => []
  let pass : TFResult := ⟨.passthrough, origRecs, origCfg⟩
  -- decide on results to tabulate
  match (match result with
         | .agg r => some (ResultSerializer r true false)
         | .val (.list recs) => some (.list recs)
         | .val _ => Option.none) with
  | Option.none => .ok pass
  | some rtt0 =>
    -- check headers
    let hN := normalizeCommas headers
    let hxN := normalizeCommas headers_exclude
    -- form tabulate parameters and results
    let branch : Except PyErr (Option (List (String × Value) × Value × List Value)) :=
      if pyEqStr tabulate "brief" then
        .ok (some (briefCfg, rtt0, origRecs))
      else if pyEqTrue tabulate then
        .ok (some ([("headers", hN)], rtt0, origRecs))
      else if pyEqStr tabulate "extend" then
        match extendFold (pyIterate rtt0) with
        | .error e => .error e
        | .ok (rows, after) =>
          .ok (some ([("headers", hN)], .list rows,
            match result with
            | .val (.list _) => after
            | _ => origRecs))
      else
        match tabulate with
        | .dict d =>
          .ok (some ((if dHasKey d "headers" then d else d ++ [("headers", hN)]),
            rtt0, origRecs))
        | _ => .ok Option.none
    match branch with
    | .error e => .error e
    | .ok Option.none => .ok pass
    | .ok (some (cfg, rtt1, recsAfter)) =>
      let cfgAfter : List (String × Value) :=
        match tabulate with
        | .dict _ => cfg
        | _ => []
      -- filter result table if requested to do so
      match excludeStage hxN rtt1 with
      | .error e => .error e
      | .ok rtt2 =>
        -- transform result_to_tabulate to list of lists
        match rowsStage cfg rtt2 with
        | .error e => .error e
        | .ok rtt3 => .ok ⟨.rendered rtt3 cfg, recsAfter, cfgAfter⟩

/-!
## Theorems
-/

/-- Claim C6: for every task outcome whose host-level exception
side-channel is truthy and whose name is not skipped, the serializer
emits — for both values of `add_details` — exactly
`{"exception": <value>}` in dict mode and `{"name": <task name>,
"exception": <value>}` in list mode, and these records carry no
`result`, `diff`, `changed` or `failed` fields; shown both for the
per-task emission and through `ResultSerializer` on a one-task
collection. -/
theorem c6_host_exception_record (h : String) (i : TaskOutcome)
    (add_details : Bool) (v : Value)
    (hskip : skipTask i.name = false)
    (hexc : hostExc i = some v) :
    taskPairDict add_details i = some (i.name, .dict [("exception", v)]) ∧
    taskRecList add_details i = some [("name", .str i.name), ("exception", v)] ∧
    (∀ k, k ∈ ["result", "diff", "changed", "failed"] →
      dHasKey [("name", Value.str i.name), ("exception", v)] k = false) ∧
    ResultSerializer [(h, [i])] add_details true =
      .dict [(h, .dict [(i.name, .dict [("exception", v)])])] ∧
    ResultSerializer [(h, [i])] add_details false =
      .dict [(h, .list [.dict [("name", .str i.name), ("exception", v)]])] := by
  refine ⟨?_, ?_, ?_, ?_, ?_⟩
  · simp [taskPairDict, hskip, hexc]
  · simp [taskRecList, hskip, hexc]
  · intro k hk
    simp only [List.mem_cons, List.mem_singleton, List.not_mem_nil, or_false] at hk
    rcases hk with rfl | rfl | rfl | rfl
    · rfl
    · rfl
    · rfl
    · rfl
  · simp [ResultSerializer, serializeHostDict, taskPairDict, hskip, hexc, dSet, dHasKey]
  · simp [ResultSerializer, serializeHostList, taskRecList, hskip, hexc]

/-- Witness for C6 at a concrete task with a host-level exception. -/
theorem c6_host_exception_record_witness :
    taskPairDict true ⟨"t1", .str "r", false, false, "", .none,
        [("exception", .str "boom")]⟩ =
      some ("t1", .dict [("exception", .str "boom")]) ∧
    taskRecList true ⟨"t1", .str "r", false, false, "", .none,
        [("exception", .str "boom")]⟩ =
      some [("name", .str "t1"), ("exception", .str "boom")] :=
  ⟨(c6_host_exception_record "h1" _ true (.str "boom") (by decide) (by rfl)).1,
   (c6_host_exception_record "h1" _ true (.str "boom") (by decide) (by rfl)).2.1⟩

/-- Claim C7: for every non-skipped task outcome without a truthy
host-level exception, with `add_details` true the emitted record's
`failed` field is `True` whenever the task's own exception is truthy
and otherwise equals the task's own failed flag, and its `exception`
field is `str(exception)` — the literal `"None"` when the exception is
absent; shown for both output shapes of the serializer's per-task
emission. -/
theorem c7_details_failed_and_exception (i : TaskOutcome)
    (hskip : skipTask i.name = false)
    (hexc : hostExc i = Option.none) :
    taskPairDict true i = some (i.name, .dict (detailFields i)) ∧
    taskRecList true i = some (("name", .str i.name) :: detailFields i) ∧
    dGet (detailFields i) "failed" =
      some (.bool (if i.exception.isTruthy then true else i.failed)) ∧
    dGet (detailFields i) "exception" = some (.str (pyStr i.exception)) ∧
    (i.exception.isTruthy = true →
      dGet (detailFields i) "failed" = some (.bool true)) ∧
    (i.exception.isTruthy = false →
      dGet (detailFields i) "failed" = some (.bool i.failed)) ∧
    (i.exception = Value.none →
      dGet (detailFields i) "exception" = some (.str "None")) := by
  refine ⟨?_, ?_, ?_, ?_, ?_, ?_, ?_⟩
  · simp [taskPairDict, hskip, hexc]
  · simp [taskRecList, hskip, hexc]
  · simp [detailFields, dGet]
  · simp [detailFields, dGet]
  · intro he
    simp [detailFields, dGet, he]
  · intro he
    simp [detailFields, dGet, he]
  · intro he
    simp [detailFields, dGet, he, pyStr, pyRepr]

/-- Witness for C7 at a concrete failed-by-exception task. -/
theorem c7_details_failed_and_exception_witness :
    dGet (detailFields ⟨"t1", .str "r", false, false, "", .str "boom", []⟩)
        "failed" = some (.bool true) ∧
    dGet (detailFields ⟨"t2", .str "r", false, true, "", .none, []⟩)
        "exception" = some (.str "None") :=
  ⟨(c7_details_failed_and_exception _ (by decide) (by rfl)).2.2.2.2.1 (by rfl),
   (c7_details_failed_and_exception ⟨"t2", .str "r", false, true, "", .none, []⟩
      (by decide) (by rfl)).2.2.2.2.2.2 (by rfl)⟩

/-- Claim C8: a task whose name begins with `"_"` or is in the static
`skip_tasks` set contributes no record to either output shape, for any
flags: its per-task emission is `none`, and deleting it from a host's
task sequence leaves both serialized shapes unchanged. -/
theorem c8_skipped_tasks_absent (h : String) (add_details to_dict : Bool)
    (pre post : List TaskOutcome) (i : TaskOutcome)
    (hskip : skipTask i.name = true) :
    taskPairDict add_details i = Option.none ∧
    taskRecList add_details i = Option.none ∧
    serializeHostDict add_details (pre ++ i :: post) =
      serializeHostDict add_details (pre ++ post) ∧
    serializeHostList add_details (pre ++ i :: post) =
      serializeHostList add_details (pre ++ post) ∧
    ResultSerializer [(h, pre ++ i :: post)] add_details to_dict =
      ResultSerializer [(h, pre ++ post)] add_details to_dict := by
  have hp : taskPairDict add_details i = Option.none := by
    simp [taskPairDict, hskip]
  have hr : taskRecList add_details i = Option.none := by
    simp [taskRecList, hskip]
  have hd : serializeHostDict add_details (pre ++ i :: post) =
      serializeHostDict add_details (pre ++ post) := by
    simp [serializeHostDict, List.foldl_append, List.foldl_cons, hp]
  have hl : serializeHostList add_details (pre ++ i :: post) =
      serializeHostList add_details (pre ++ post) := by
    simp [serializeHostList, List.filterMap_append, List.filterMap_cons, hr]
  refine ⟨hp, hr, hd, hl, ?_⟩
  cases to_dict <;> simp [ResultSerializer, hd, hl]

/-- Witness for C8 at a concrete underscore-named task. -/
theorem c8_skipped_tasks_absent_witness :
    taskPairDict true ⟨"_gather", .str "r", false, false, "", .none, []⟩ =
      Option.none ∧
    serializeHostList true [⟨"t1", .str "a", false, false, "", .none, []⟩,
        ⟨"_gather", .str "r", false, false, "", .none, []⟩] =
      serializeHostList true [⟨"t1", .str "a", false, false, "", .none, []⟩] :=
  ⟨(c8_skipped_tasks_absent "h1" true true [] []
      ⟨"_gather", .str "r", false, false, "", .none, []⟩ (by decide)).1,
   (c8_skipped_tasks_absent "h1" true true
      [⟨"t1", .str "a", false, false, "", .none, []⟩] []
      ⟨"_gather", .str "r", false, false, "", .none, []⟩ (by decide)).2.2.2.1⟩

/-- Claim C1 (code evidence): on an `AggregatedResult` input under the
default rendering-enabled mode, the data handed to the rendering
backend is the serializer's host-keyed dict itself — not a flat list,
and with no `"host"` field added to any record: the code assigns
`result_to_tabulate = ResultSerializer(result, add_details=True,
to_dict=False)` and never flattens it or annotates host identifiers. -/
theorem c1_no_flattening_no_host_field :
    TabulateFormatter
      (.agg [("ceos1", [⟨"show clock", .str "12:00", false, false, "", .none, []⟩]),
             ("ceos2", [⟨"show clock", .str "12:01", false, false, "", .none, []⟩])])
      (.bool true) (.str "keys") (.list []) =
    .ok ⟨.rendered
      (.dict [("ceos1", .list [.dict
          [("name", .str "show clock"), ("diff", .str ""), ("changed", .bool false),
           ("result", .str "12:00"), ("failed", .bool false), ("exception", .str "None")]]),
        ("ceos2", .list [.dict
          [("name", .str "show clock"), ("diff", .str ""), ("changed", .bool false),
           ("result", .str "12:01"), ("failed", .bool false), ("exception", .str "None")]])])
      [("headers", .str "keys")], [], []⟩ := by
  rfl

/-- Claim C2 counterexample: a flat record list whose record lacks a
`result` field — exactly the host-exception-only shape the serializer
emits — makes mode `extend` raise a KeyError instead of returning. -/
theorem c2_cex_extend_keyerror :
    TabulateFormatter
      (.val (.list [.dict [("name", .str "t"), ("exception", .str "err")]]))
      (.str "extend") (.str "keys") (.list []) =
    .error (.keyError "result") := by
  rfl

/-- A record as the `extend` loop requires it: a dict carrying a
`result` key. -/
def isDictWithResult : Value → Bool
  | .dict d => dHasKey d "result"
  | _ => false

/-- A dict value. -/
def isDictB : Value → Bool
  | .dict _ => true
  | _ => false

/-- A header entry `item.get(i, "")` accepts: anything hashable, i.e.
not a list or dict. -/
def safeHeaderEntry : Value → Bool
  | .list _ => false
  | .dict _ => false
  | _ => true

/-- A `headers` value whose row-conversion step cannot raise: either
not a list (no row conversion happens) or a list of hashable
entries. -/
def headersRowSafe : Value → Bool
  | .list xs => xs.all safeHeaderEntry
  | _ => true

/-- Whether a call returned normally. -/
def isOkTF : Except PyErr TFResult → Bool
  | .ok _ => true
  | .error _ => false

/-- The caller's record-list contents after a normal return. -/
def tfRecsAfter : Except PyErr TFResult → Option (List Value)
  | .ok r => some r.recsAfter
  | .error _ => Option.none

/-- The caller's configuration-dict contents after a normal return. -/
def tfCfgAfter : Except PyErr TFResult → Option (List (String × Value))
  | .ok r => some r.cfgAfter
  | .error _ => Option.none

/-- What `res.pop("result")` leaves of one record of the `extend`
loop: a dict whose `result` is a list loses that key; anything else is
untouched. -/
def popResult : Value → Value
  | .dict d =>
    match dGet d "result" with
    | some (.list _) => .dict (dErase d "result")
    | _ => .dict d
  | v => v

/-- The rows one record contributes in the `extend` loop. -/
def expandRec : Value → List Value
  | .dict d =>
    match dGet d "result" with
    | some (.list xs) =>
      xs.map (fun i =>
        match i with
        | .dict di => Value.dict (dMerge (dErase d "result") di)
        | _ => Value.dict (dMerge (dErase d "result") [("result", i)]))
    | _ => [.dict d]
  | v => [v]

theorem dGet_of_hasKey {d : List (String × Value)} {k : String}
    (h : dHasKey d k = true) : ∃ v, dGet d k = some v := by
  induction d with
  | nil => simp [dHasKey] at h
  | cons p rest ih =>
    rw [dHasKey, List.any_cons] at h
    rcases Bool.or_eq_true_iff.mp h with h1 | h2
    · exact ⟨p.2, by simp [dGet, h1]⟩
    · by_cases hpk : p.1 == k
      · exact ⟨p.2, by simp [dGet, hpk]⟩
      · obtain ⟨v, hv⟩ := ih h2
        exact ⟨v, by simp [dGet, hpk, hv]⟩

theorem dGet_none_of_not_hasKey {d : List (String × Value)} {k : String}
    (h : dHasKey d k = false) : dGet d k = Option.none := by
  induction d with
  | nil => rfl
  | cons p rest ih =>
    rw [dHasKey, List.any_cons] at h
    obtain ⟨h1, h2⟩ := Bool.or_eq_false_iff.mp h
    rw [dGet, if_neg (by simp_all), ih h2]

theorem dGet_append (d l : List (String × Value)) (k : String) :
    dGet (d ++ l) k =
      match dGet d k with
      | some v => some v
      | Option.none => dGet l k := by
  induction d with
  | nil => rfl
  | cons p rest ih =>
    by_cases hpk : p.1 == k <;> simp [dGet, hpk, ih]

theorem extendStep_of_result {v : Value} (hres : isDictWithResult v = true) :
    extendStep v = .ok (expandRec v, popResult v) := by
  cases v with
  | dict d =>
    rw [isDictWithResult] at hres
    obtain ⟨w, hw⟩ := dGet_of_hasKey hres
    cases w <;> simp [extendStep, expandRec, popResult, hw]
  | none => simp [isDictWithResult] at hres
  | bool b => simp [isDictWithResult] at hres
  | int n => simp [isDictWithResult] at hres
  | str s => simp [isDictWithResult] at hres
  | list xs => simp [isDictWithResult] at hres

theorem extendFold_formula {recs : List Value}
    (h : recs.all isDictWithResult = true) :
    extendFold recs = .ok (recs.flatMap expandRec, recs.map popResult) := by
  induction recs with
  | nil => rfl
  | cons r rest ih =>
    rw [List.all_cons] at h
    obtain ⟨h1, h2⟩ := Bool.and_eq_true_iff.mp h
    rw [extendFold, extendStep_of_result h1, ih h2]
    simp

theorem expandRec_all_dict {v : Value} (h : isDictB v = true) :
    (expandRec v).all isDictB = true := by
  cases v with
  | dict d =>
    rw [expandRec]
    cases hg : dGet d "result" with
    | none => simp [isDictB]
    | some w =>
      cases w with
      | list xs =>
        rw [List.all_eq_true]
        intro x hx
        obtain ⟨i, hi, rfl⟩ := List.mem_map.mp hx
        cases i <;> simp [isDictB]
      | none => simp [isDictB]
      | bool b => simp [isDictB]
      | int n => simp [isDictB]
      | str s => simp [isDictB]
      | dict dd => simp [isDictB]
  | none => simp [isDictB] at h
  | bool b => simp [isDictB] at h
  | int n => simp [isDictB] at h
  | str s => simp [isDictB] at h
  | list xs => simp [isDictB] at h

theorem flatMap_expandRec_all_dict {recs : List Value}
    (h : recs.all isDictB = true) :
    (recs.flatMap expandRec).all isDictB = true := by
  rw [List.all_eq_true]
  intro x hx
  obtain ⟨r, hr, hxr⟩ := List.mem_flatMap.mp hx
  have hrd : isDictB r = true := List.all_eq_true.mp h r hr
  exact List.all_eq_true.mp (expandRec_all_dict hrd) x hxr

theorem isDictWithResult_dict {recs : List Value}
    (h : recs.all isDictWithResult = true) : recs.all isDictB = true := by
  rw [List.all_eq_true] at h ⊢
  intro x hx
  have := h x hx
  cases x <;> simp [isDictB, isDictWithResult] at this ⊢

theorem filterKeysEx_list (xs : List Value) (d : List (String × Value)) :
    filterKeysEx (.list xs) d =
      .ok (d.filter (fun p => !xs.any (fun e =>
        match e with
        | Value.str s => s == p.1
        | _ => false))) := by
  induction d with
  | nil => rfl
  | cons p rest ih =>
    rw [filterKeysEx, ih, List.filter_cons]
    simp [pyNotIn]

theorem filterKeysEx_str (s : String) (d : List (String × Value)) :
    filterKeysEx (.str s) d = .ok (d.filter (fun p => !substrB p.1 s)) := by
  induction d with
  | nil => rfl
  | cons p rest ih =>
    rw [filterKeysEx, ih, List.filter_cons]
    simp [pyNotIn]

theorem excludeItems_ok_all_dict {items : List Value}
    (hd : items.all isDictB = true) (xs : List Value) :
    ∃ ys, excludeItems (.list xs) items = .ok ys ∧ ys.all isDictB = true := by
  induction items with
  | nil => exact ⟨[], rfl, rfl⟩
  | cons x rest ih =>
    rw [List.all_cons] at hd
    obtain ⟨h1, h2⟩ := Bool.and_eq_true_iff.mp hd
    obtain ⟨ys, hys, hall⟩ := ih h2
    cases x with
    | dict d =>
      refine ⟨.dict (d.filter (fun p => !xs.any (fun e =>
        match e with
        | Value.str s => s == p.1
        | _ => false))) :: ys, ?_, ?_⟩
      · rw [excludeItems, excludeItem, filterKeysEx_list, hys]
      · simp [isDictB, hall]
    | none => simp [isDictB] at h1
    | bool b => simp [isDictB] at h1
    | int n => simp [isDictB] at h1
    | str s => simp [isDictB] at h1
    | list l => simp [isDictB] at h1

theorem cellsOf_safe {hs : List Value} (h : hs.all safeHeaderEntry = true)
    (d : List (String × Value)) : ∃ cells, cellsOf d hs = .ok cells := by
  induction hs with
  | nil => exact ⟨[], rfl⟩
  | cons x rest ih =>
    rw [List.all_cons] at h
    obtain ⟨h1, h2⟩ := Bool.and_eq_true_iff.mp h
    obtain ⟨cells, hc⟩ := ih h2
    cases x with
    | str k =>
      refine ⟨(dGet d k).getD (.str "") :: cells, ?_⟩
      rw [cellsOf]
      simp [hc]
    | none =>
      refine ⟨.str "" :: cells, ?_⟩
      show (match cellsOf d rest with
        | .error e => .error e
        | .ok cs => .ok (.str "" :: cs) : Except PyErr (List Value)) = _
      rw [hc]
    | bool b =>
      refine ⟨.str "" :: cells, ?_⟩
      show (match cellsOf d rest with
        | .error e => .error e
        | .ok cs => .ok (.str "" :: cs) : Except PyErr (List Value)) = _
      rw [hc]
    | int n =>
      refine ⟨.str "" :: cells, ?_⟩
      show (match cellsOf d rest with
        | .error e => .error e
        | .ok cs => .ok (.str "" :: cs) : Except PyErr (List Value)) = _
      rw [hc]
    | list l => simp [safeHeaderEntry] at h1
    | dict dd => simp [safeHeaderEntry] at h1

theorem rowsOfItems_ok_all_dict {items : List Value}
    (hd : items.all isDictB = true) {hs : List Value}
    (hsafe : hs.all safeHeaderEntry = true) :
    ∃ rows, rowsOfItems hs items = .ok rows := by
  induction items with
  | nil => exact ⟨[], rfl⟩
  | cons x rest ih =>
    rw [List.all_cons] at hd
    obtain ⟨h1, h2⟩ := Bool.and_eq_true_iff.mp hd
    obtain ⟨rows, hr⟩ := ih h2
    cases x with
    | dict d =>
      obtain ⟨cells, hc⟩ := cellsOf_safe hsafe d
      refine ⟨.list cells :: rows, ?_⟩
      rw [rowsOfItems, rowOfItem]
      simp [hc, hr]
    | none => simp [isDictB] at h1
    | bool b => simp [isDictB] at h1
    | int n => simp [isDictB] at h1
    | str s => simp [isDictB] at h1
    | list l => simp [isDictB] at h1

theorem excludeStage_all_dict (hxs : List Value) {items : List Value}
    (hall : items.all isDictB = true) :
    ∃ items2, excludeStage (.list hxs) (.list items) = .ok (.list items2) ∧
      items2.all isDictB = true := by
  cases hxs with
  | nil => exact ⟨items, rfl, hall⟩
  | cons c rest =>
    obtain ⟨ys, hys, hysall⟩ := excludeItems_ok_all_dict hall (c :: rest)
    refine ⟨ys, ?_, hysall⟩
    rw [excludeStage]
    simp [Value.isTruthy, pyIterate, hys]

theorem rowsStage_ok {cfg : List (String × Value)} {w : Value}
    (hv : dGet cfg "headers" = some w) (hsafe : headersRowSafe w = true)
    {items : List Value} (hall : items.all isDictB = true) :
    ∃ rtt3, rowsStage cfg (.list items) = .ok rtt3 := by
  rw [rowsStage, hv]
  cases w with
  | list hs =>
    rw [headersRowSafe] at hsafe
    obtain ⟨rows, hrows⟩ := rowsOfItems_ok_all_dict hall hsafe
    exact ⟨.list rows, by simp [pyIterate, hrows]⟩
  | none => exact ⟨.list items, rfl⟩
  | bool b => exact ⟨.list items, rfl⟩
  | int n => exact ⟨.list items, rfl⟩
  | str s => exact ⟨.list items, rfl⟩
  | dict dd => exact ⟨.list items, rfl⟩

theorem tf_extend_shape (recs : List Value) (headers : Value) (hxs : List Value)
    (hrec : recs.all isDictWithResult = true)
    (hh : headersRowSafe (normalizeCommas headers) = true) :
    isOkTF (TabulateFormatter (.val (.list recs)) (.str "extend") headers
      (.list hxs)) = true ∧
    tfRecsAfter (TabulateFormatter (.val (.list recs)) (.str "extend") headers
      (.list hxs)) = some (recs.map popResult) ∧
    tfCfgAfter (TabulateFormatter (.val (.list recs)) (.str "extend") headers
      (.list hxs)) = some [] := by
  have hall : (recs.flatMap expandRec).all isDictB = true :=
    flatMap_expandRec_all_dict (isDictWithResult_dict hrec)
  obtain ⟨items2, hex, hall2⟩ :=
    excludeStage_all_dict hxs hall
  have hget : dGet [("headers", normalizeCommas headers)] "headers" =
      some (normalizeCommas headers) := by simp [dGet]
  obtain ⟨rtt3, hr3⟩ := rowsStage_ok hget hh hall2
  rw [TabulateFormatter]
  simp only [pyEqStr, pyEqTrue, String.reduceBEq, Bool.false_eq_true, if_false, reduceIte]
  all_goals try exact fun di h => Value.noConfusion h
  rw [show pyIterate (.list recs) = recs from rfl, extendFold_formula hrec,
    show normalizeCommas (.list hxs) = .list hxs from rfl]
  simp [hex, hr3, isOkTF, tfRecsAfter, tfCfgAfter]

theorem tf_dictcfg_shape (recs : List Value) (headers : Value) (hxs : List Value)
    (d : List (String × Value))
    (hrec : recs.all isDictB = true)
    (hh : headersRowSafe (normalizeCommas headers) = true)
    (hh2 : ∀ v, dGet d "headers" = some v → headersRowSafe v = true) :
    isOkTF (TabulateFormatter (.val (.list recs)) (.dict d) headers
      (.list hxs)) = true ∧
    tfRecsAfter (TabulateFormatter (.val (.list recs)) (.dict d) headers
      (.list hxs)) = some recs ∧
    tfCfgAfter (TabulateFormatter (.val (.list recs)) (.dict d) headers
      (.list hxs)) = some (if dHasKey d "headers" then d
        else d ++ [("headers", normalizeCommas headers)]) := by
  obtain ⟨items2, hex, hall2⟩ := excludeStage_all_dict hxs hrec
  rw [TabulateFormatter]
  simp only [pyEqStr, pyEqTrue, Bool.false_eq_true, if_false, reduceIte]
  rw [show normalizeCommas (.list hxs) = .list hxs from rfl]
  cases hk : dHasKey d "headers" with
  | true =>
    obtain ⟨w, hw⟩ := dGet_of_hasKey hk
    obtain ⟨rtt3, hr3⟩ := rowsStage_ok hw (hh2 w hw) hall2
    simp [hk, hex, hr3, isOkTF, tfRecsAfter, tfCfgAfter]
  | false =>
    have hw : dGet (d ++ [("headers", normalizeCommas headers)]) "headers" =
        some (normalizeCommas headers) := by
      rw [dGet_append, dGet_none_of_not_hasKey hk]
      simp [dGet]
    obtain ⟨rtt3, hr3⟩ := rowsStage_ok hw hh hall2
    simp [hk, hex, hr3, isOkTF, tfRecsAfter, tfCfgAfter]

/-- Claim C2 (amended): the no-raise guarantee holds under mode
`extend` for flat lists of mapping records that all carry a `result`
field (with hashable header entries); it does not extend to records
lacking `result` (see the KeyError counterexample) nor to
`AggregatedResult` input under `extend`. -/
theorem c2_amended_no_raise (recs : List Value) (headers : Value)
    (hxs : List Value)
    (hrec : recs.all isDictWithResult = true)
    (hh : headersRowSafe (normalizeCommas headers) = true) :
    isOkTF (TabulateFormatter (.val (.list recs)) (.str "extend") headers
      (.list hxs)) = true :=
  (tf_extend_shape recs headers hxs hrec hh).1

/-- Witness for the amended C2 at a concrete record list. -/
theorem c2_amended_no_raise_witness :
    ([Value.dict [("name", .str "t"), ("result", .str "r")],
      Value.dict [("name", .str "u"), ("result", .list [.str "a"])]].all
        isDictWithResult = true) ∧
    isOkTF (TabulateFormatter
      (.val (.list [.dict [("name", .str "t"), ("result", .str "r")],
                    .dict [("name", .str "u"), ("result", .list [.str "a"])]]))
      (.str "extend") (.str "keys") (.list [])) = true :=
  ⟨by rfl, c2_amended_no_raise _ _ _ (by rfl) (by rfl)⟩

/-- Claim C3 counterexample: under mode `extend`, a caller-supplied
record whose `result` is a list is mutated in place — after a normal
return the record has lost its `result` key (the source pops it); the
claim that records keep all their keys is false. -/
theorem c3_cex_extend_pops_result :
    TabulateFormatter
      (.val (.list [.dict [("name", .str "t"), ("result", .list [.str "a"])]]))
      (.str "extend") (.str "keys") (.list []) =
    .ok ⟨.rendered (.list [.dict [("name", .str "t"), ("result", .str "a")]])
          [("headers", .str "keys")],
        [.dict [("name", .str "t")]], []⟩ ∧
    dHasKey [("name", Value.str "t")] "result" = false := by
  exact ⟨by rfl, by rfl⟩

/-- Claim C3 (amended): under mode `extend` each caller record whose
`result` is a list loses that key in place (via `pop`) while other
records stay untouched, and a custom configuration mapping without a
`headers` key gains one in place (via `setdefault`); all other
caller-supplied input is unchanged: with a custom configuration the
record list is returned exactly as supplied, and a configuration that
already has `headers` stays identical. -/
theorem c3_amended_mutation (recs : List Value) (headers : Value)
    (hxs : List Value) (d : List (String × Value))
    (hrec : recs.all isDictWithResult = true)
    (hh : headersRowSafe (normalizeCommas headers) = true)
    (hh2 : ∀ v, dGet d "headers" = some v → headersRowSafe v = true) :
    tfRecsAfter (TabulateFormatter (.val (.list recs)) (.str "extend") headers
      (.list hxs)) = some (recs.map popResult) ∧
    tfCfgAfter (TabulateFormatter (.val (.list recs)) (.str "extend") headers
      (.list hxs)) = some [] ∧
    tfRecsAfter (TabulateFormatter (.val (.list recs)) (.dict d) headers
      (.list hxs)) = some recs ∧
    tfCfgAfter (TabulateFormatter (.val (.list recs)) (.dict d) headers
      (.list hxs)) = some (if dHasKey d "headers" then d
        else d ++ [("headers", normalizeCommas headers)]) :=
  ⟨(tf_extend_shape recs headers hxs hrec hh).2.1,
   (tf_extend_shape recs headers hxs hrec hh).2.2,
   (tf_dictcfg_shape recs headers hxs d (isDictWithResult_dict hrec) hh hh2).2.1,
   (tf_dictcfg_shape recs headers hxs d (isDictWithResult_dict hrec) hh hh2).2.2⟩

/-- Witness for the amended C3 at concrete inputs: the extend call
pops the list-valued `result`, and the custom configuration gains a
`headers` entry. -/
theorem c3_amended_mutation_witness :
    tfRecsAfter (TabulateFormatter
      (.val (.list [.dict [("name", .str "t"), ("result", .list [.str "a"])]]))
      (.str "extend") (.str "keys") (.list [])) =
      some [.dict [("name", .str "t")]] ∧
    tfCfgAfter (TabulateFormatter
      (.val (.list [.dict [("name", .str "t"), ("result", .list [.str "a"])]]))
      (.dict [("tablefmt", .str "grid")]) (.str "keys") (.list [])) =
      some [("tablefmt", .str "grid"), ("headers", .str "keys")] :=
  ⟨(c3_amended_mutation [.dict [("name", .str "t"), ("result", .list [.str "a"])]]
      (.str "keys") [] [("tablefmt", .str "grid")] (by rfl) (by rfl)
      (fun v h => by simp [dGet] at h)).1,
   (c3_amended_mutation [.dict [("name", .str "t"), ("result", .list [.str "a"])]]
      (.str "keys") [] [("tablefmt", .str "grid")] (by rfl) (by rfl)
      (fun v h => by simp [dGet] at h)).2.2.2⟩

theorem anyStr_map (names : List String) (k : String) :
    (names.map Value.str).any (fun e =>
      match e with
      | Value.str s => s == k
      | _ => false) = names.any (fun n => n == k) := by
  induction names with
  | nil => rfl
  | cons n rest ih => simp [List.any_cons, ih]

theorem excludeItems_map_dict (xs : List Value)
    (ds : List (List (String × Value))) :
    excludeItems (.list xs) (ds.map Value.dict) =
      .ok (ds.map (fun d => Value.dict (d.filter (fun p => !xs.any (fun e =>
        match e with
        | Value.str s => s == p.1
        | _ => false))))) := by
  induction ds with
  | nil => rfl
  | cons d rest ih =>
    rw [List.map_cons, excludeItems, excludeItem, filterKeysEx_list, ih]
    rfl

theorem tf_exclusion_formula (ds : List (List (String × Value)))
    (names : List String) :
    TabulateFormatter (.val (.list (ds.map Value.dict))) (.bool true)
      (.str "keys") (.list (names.map Value.str)) =
    .ok ⟨.rendered (.list (ds.map (fun d => Value.dict (d.filter (fun p =>
          !names.any (fun n => n == p.1))))))
        [("headers", .str "keys")], ds.map Value.dict, []⟩ := by
  rw [TabulateFormatter]
  simp only [pyEqStr, pyEqTrue, reduceIte, if_true, if_false]
  all_goals try exact fun di h => Value.noConfusion h
  cases names with
  | nil =>
    simp [normalizeCommas, Value.isTruthy, excludeStage, rowsStage, dGet, pyIterate,
      substrB, containsL]
  | cons n rest =>
    rw [show normalizeCommas (.list ((n :: rest).map Value.str)) =
      .list ((n :: rest).map Value.str) from rfl]
    simp only [Bool.false_eq_true, if_false, excludeStage, Value.isTruthy, pyIterate,
      excludeItems_map_dict, List.isEmpty_cons, Bool.not_false, if_true, reduceIte]
    simp [rowsStage, dGet, normalizeCommas, substrB, containsL, anyStr_map]

/-- Claim C5 counterexample: with `headers_exclude` given as the
single-name string `"result"` (no comma), the code's `k not in
headers_exclude` is a substring test, so the un-named field `"res"` is
removed as well — the record comes out empty. -/
theorem c5_cex_substring_removal :
    TabulateFormatter
      (.val (.list [.dict [("result", .str "x"), ("res", .str "y")]]))
      (.bool true) (.str "keys") (.str "result") =
    .ok ⟨.rendered (.list [.dict []]) [("headers", .str "keys")],
        [.dict [("result", .str "x"), ("res", .str "y")]], []⟩ ∧
    ("res" == "result") = false := ⟨by rfl, by rfl⟩

/-- Claim C5 (amended): exclusion removes exactly the named fields
when `headers_exclude` is a list of names or a comma-containing string
(split on commas and stripped); a comma-free string instead removes
every field whose name is a substring of it; in all cases applying the
same exclusion twice equals applying it once, and through
`TabulateFormatter` a list-valued exclusion filters exactly the named
keys out of every record. -/
theorem c5_amended_exclusion (d : List (String × Value)) (names : List String)
    (s : String) (ds : List (List (String × Value))) :
    filterKeysEx (.list (names.map .str)) d =
      .ok (d.filter (fun p => !names.any (fun n => n == p.1))) ∧
    filterKeysEx (.list (names.map .str))
        (d.filter (fun p => !names.any (fun n => n == p.1))) =
      .ok (d.filter (fun p => !names.any (fun n => n == p.1))) ∧
    (substrB "," s = true →
      filterKeysEx (normalizeCommas (.str s)) d =
        .ok (d.filter (fun p => !(pySplitOn s (Char.ofNat 44)).any
          (fun n => pyStrip n == p.1)))) ∧
    (substrB "," s = false →
      filterKeysEx (normalizeCommas (.str s)) d =
        .ok (d.filter (fun p => !substrB p.1 s))) ∧
    TabulateFormatter (.val (.list (ds.map Value.dict))) (.bool true)
      (.str "keys") (.list (names.map Value.str)) =
    .ok ⟨.rendered (.list (ds.map (fun dd => Value.dict (dd.filter (fun p =>
          !names.any (fun n => n == p.1))))))
        [("headers", .str "keys")], ds.map Value.dict, []⟩ := by
  refine ⟨?_, ?_, ?_, ?_, tf_exclusion_formula ds names⟩
  · rw [filterKeysEx_list]
    simp [anyStr_map]
  · rw [filterKeysEx_list]
    simp [anyStr_map, List.filter_filter]
  · intro hc
    rw [normalizeCommas, if_pos hc, filterKeysEx_list]
    congr 1
    apply List.filter_congr
    intro p hp
    congr 1
    induction pySplitOn s (Char.ofNat 44) with
    | nil => rfl
    | cons x rest ih => simp [List.any_cons, ih]
  · intro hc
    rw [normalizeCommas, if_neg (by simp [hc]), filterKeysEx_str]

/-- Witness for the amended C5: a comma-separated string removes
exactly the two named fields; a comma-free string removes by
substring. -/
theorem c5_amended_exclusion_witness :
    substrB "," "diff, changed" = true ∧
    filterKeysEx (normalizeCommas (.str "diff, changed"))
        [("diff", Value.str "d"), ("result", Value.str "r"),
         ("changed", Value.bool false)] =
      .ok [("result", Value.str "r")] ∧
    substrB "," "result" = false ∧
    filterKeysEx (normalizeCommas (.str "result"))
        [("result", Value.str "x"), ("res", Value.str "y")] = .ok [] :=
  ⟨by rfl,
   ((c5_amended_exclusion [("diff", Value.str "d"), ("result", Value.str "r"),
      ("changed", Value.bool false)] [] "diff, changed" []).2.2.1 (by rfl)).trans
      (by rfl),
   by rfl,
   ((c5_amended_exclusion [("result", Value.str "x"), ("res", Value.str "y")]
      [] "result" []).2.2.2.1 (by rfl)).trans (by rfl)⟩

/-- Claim C9: in the `extend` loop, a record whose `result` is a list
of `n` elements contributes exactly `n` rows — each element merged
over the record's other fields (the popped record), a mapping element
overriding the parent's keys and a non-mapping element becoming the
new `result` — and the original unexpanded record is dropped; a record
whose `result` is not a list contributes exactly itself, unchanged. -/
theorem c9_extend_expansion (dd : List (String × Value)) (xs : List Value)
    (v : Value) :
    (dGet dd "result" = some (Value.list xs) →
      extendStep (.dict dd) =
        .ok (xs.map (fun i =>
          match i with
          | Value.dict di => Value.dict (dMerge (dErase dd "result") di)
          | _ => Value.dict (dMerge (dErase dd "result") [("result", i)])),
          .dict (dErase dd "result")) ∧
      (xs.map (fun i =>
        match i with
        | Value.dict di => Value.dict (dMerge (dErase dd "result") di)
        | _ => Value.dict (dMerge (dErase dd "result") [("result", i)]))).length
        = xs.length) ∧
    (dGet dd "result" = some v → (∀ ys, v ≠ Value.list ys) →
      extendStep (.dict dd) = .ok ([.dict dd], .dict dd)) := by
  constructor
  · intro hv
    constructor
    · simp [extendStep, hv]
    · exact List.length_map _ _
  · intro hv hnl
    cases v with
    | list ys => exact absurd rfl (hnl ys)
    | none => simp [extendStep, hv]
    | bool b => simp [extendStep, hv]
    | int n => simp [extendStep, hv]
    | str s => simp [extendStep, hv]
    | dict d2 => simp [extendStep, hv]

/-- Witness for C9: a three-element list result expands to exactly
three rows inheriting the parent's other fields, and a scalar result
passes through as one unchanged row. -/
theorem c9_extend_expansion_witness :
    (dGet [("name", Value.str "t"), ("result", Value.list
        [.str "a", .dict [("x", .int 1)], .str "c"])] "result" =
      some (Value.list [.str "a", .dict [("x", .int 1)], .str "c"])) ∧
    extendStep (.dict [("name", Value.str "t"), ("result", Value.list
        [.str "a", .dict [("x", .int 1)], .str "c"])]) =
      .ok ([.dict [("name", .str "t"), ("result", .str "a")],
            .dict [("name", .str "t"), ("x", .int 1)],
            .dict [("name", .str "t"), ("result", .str "c")]],
           .dict [("name", .str "t")]) ∧
    extendStep (.dict [("name", Value.str "u"), ("result", Value.str "s")]) =
      .ok ([.dict [("name", .str "u"), ("result", .str "s")]],
           .dict [("name", .str "u"), ("result", .str "s")]) :=
  ⟨by rfl,
   ((c9_extend_expansion [("name", Value.str "t"), ("result", Value.list
        [.str "a", .dict [("x", .int 1)], .str "c"])]
      [.str "a", .dict [("x", .int 1)], .str "c"] Value.none).1 (by rfl)).1.trans
      (by rfl),
   (c9_extend_expansion [("name", Value.str "u"), ("result", Value.str "s")]
      [] (Value.str "s")).2 (by rfl) (fun ys h => Value.noConfusion h)⟩

theorem cellsOf_strs (d : List (String × Value)) (ks : List String) :
    cellsOf d (ks.map Value.str) =
      .ok (ks.map (fun k => (dGet d k).getD (.str ""))) := by
  induction ks with
  | nil => rfl
  | cons k rest ih => simp [cellsOf, ih]

theorem rowsOfItems_strs (ks : List String)
    (ds : List (List (String × Value))) :
    rowsOfItems (ks.map Value.str) (ds.map Value.dict) =
      .ok (ds.map (fun d => Value.list (ks.map (fun k =>
        (dGet d k).getD (.str ""))))) := by
  induction ds with
  | nil => rfl
  | cons d rest ih => simp [rowsOfItems, rowOfItem, cellsOf_strs, ih]

theorem dGet_filter (names : List String) (d : List (String × Value))
    (k : String) :
    dGet (d.filter (fun p => !names.any (fun n => n == p.1))) k =
      if names.any (fun n => n == k) then Option.none else dGet d k := by
  induction d with
  | nil => simp [dGet]
  | cons p rest ih =>
    by_cases hpk : p.1 = k
    · subst hpk
      by_cases ha : names.any (fun n => n == p.1)
      · simp [List.filter_cons, ha, ih]
      · simp [List.filter_cons, ha, dGet, ih]
    · by_cases ha : names.any (fun n => n == p.1)
      · simp [List.filter_cons, ha, ih, dGet, hpk]
      · simp [List.filter_cons, ha, dGet, hpk, ih]

theorem rowsOfItems_strs_general (ks : List String)
    (f : List (String × Value) → List (String × Value))
    (ds : List (List (String × Value))) :
    rowsOfItems (ks.map Value.str) (ds.map (fun d => Value.dict (f d))) =
      .ok (ds.map (fun d => Value.list (ks.map (fun k =>
        (dGet (f d) k).getD (.str ""))))) := by
  induction ds with
  | nil => rfl
  | cons d rest ih => simp [rowsOfItems, rowOfItem, cellsOf_strs, ih]

/-- Claim C10: with an explicit header list, excluding one of the
listed names does not remove its column: every record still yields a
row with exactly one cell per listed header, positionally aligned, and
the cell under an excluded (or missing) header is the empty string. -/
theorem c10_excluded_header_keeps_column
    (ds : List (List (String × Value))) (hs names : List String) :
    TabulateFormatter (.val (.list (ds.map Value.dict))) (.bool true)
      (.list (hs.map Value.str)) (.list (names.map Value.str)) =
    .ok ⟨.rendered (.list (ds.map (fun d => Value.list (hs.map (fun k =>
          if names.any (fun n => n == k) then Value.str ""
          else (dGet d k).getD (Value.str ""))))))
        [("headers", .list (hs.map Value.str))], ds.map Value.dict, []⟩ ∧
    (∀ d : List (String × Value), (hs.map (fun k =>
      if names.any (fun n => n == k) then Value.str ""
      else (dGet d k).getD (Value.str ""))).length = hs.length) := by
  constructor
  · rw [TabulateFormatter]
    simp only [pyEqStr, pyEqTrue, reduceIte, if_true, if_false]
    all_goals try exact fun di h => Value.noConfusion h
    rw [show normalizeCommas (.list (hs.map Value.str)) =
      .list (hs.map Value.str) from rfl]
    rw [show normalizeCommas (.list (names.map Value.str)) =
      .list (names.map Value.str) from rfl]
    cases names with
    | nil =>
      simp [Value.isTruthy, excludeStage, rowsStage, dGet, pyIterate,
        rowsOfItems_strs]
    | cons n rest =>
      have hrows := rowsOfItems_strs_general hs
        (fun d => d.filter (fun p => !(((n :: rest).map Value.str).any (fun e =>
          match e with
          | Value.str s => s == p.1
          | _ => false)))) ds
      simp only [Bool.false_eq_true, if_false, excludeStage, Value.isTruthy,
        pyIterate, excludeItems_map_dict, List.isEmpty_cons, Bool.not_false,
        if_true, reduceIte, rowsStage, dGet, String.reduceBEq]
      simp [dGet_filter, anyStr_map, apply_ite] at hrows
      simp [hrows, dGet_filter, anyStr_map, apply_ite]
      intro a ha k hk
      have hdf := dGet_filter (n :: rest) a k
      simp at hdf
      by_cases hc : n = k ∨ k ∈ rest
      · simp [hc] at hdf ⊢
        simp [hdf]
      · simp [hc] at hdf ⊢
        simp [hdf]
  · intro d
    exact List.length_map _ _

/-- The task name a list-shape record carries in its `name` field. -/
def recName (rec : List (String × Value)) : String :=
  match dGet rec "name" with
  | some (.str s) => s
  | _ => ""

/-- The payload a list-shape record carries: its `result` value when
present, otherwise the record without its `name` field (the
host-exception-only shape `{"exception": v}`). -/
def recPayload (rec : List (String × Value)) : Value :=
  match dGet rec "result" with
  | some r => r
  | Option.none => .dict (dErase rec "name")

/-- The (host, task-name, payload) triples of the `to_dict=True`
output shape. -/
def dictShapeTriples (v : Value) : List (String × String × Value) :=
  match v with
  | .dict hosts => hosts.flatMap (fun p =>
      match p.2 with
      | .dict d => d.map (fun q => (p.1, q.1, q.2))
      | _ => [])
  | _ => []

/-- The (host, task-name, payload) triples of the `to_dict=False`
output shape. -/
def listShapeTriples (v : Value) : List (String × String × Value) :=
  match v with
  | .dict hosts => hosts.flatMap (fun p =>
      match p.2 with
      | .list recs => recs.flatMap (fun r =>
          match r with
          | .dict rec => [(p.1, recName rec, recPayload rec)]
          | _ => [])
      | _ => [])
  | _ => []

theorem task_pair_rec (i : TaskOutcome) :
    (taskRecList false i).map (fun rec => (recName rec, recPayload rec)) =
      taskPairDict false i := by
  rw [taskRecList, taskPairDict]
  by_cases hs : skipTask i.name
  · simp [hs]
  · cases hx : hostExc i with
    | some v => simp [hs, hx, recName, recPayload, dGet, dErase]
    | none => simp [hs, hx, recName, recPayload, dGet]

theorem dHasKey_iff {d : List (String × Value)} {k : String} :
    dHasKey d k = true ↔ k ∈ d.map Prod.fst := by
  simp only [dHasKey, List.any_eq_true, List.mem_map, beq_iff_eq]

theorem dSet_fresh {acc : List (String × Value)} {k : String} (v : Value)
    (h : k ∉ acc.map Prod.fst) : dSet acc k v = acc ++ [(k, v)] := by
  rw [dSet, if_neg]
  intro hk
  exact h (dHasKey_iff.mp hk)

theorem foldl_dSet_append (pairs : List (String × Value)) :
    ∀ acc : List (String × Value),
    ((acc ++ pairs).map Prod.fst).Nodup →
    pairs.foldl (fun a p => dSet a p.1 p.2) acc = acc ++ pairs := by
  induction pairs with
  | nil => intro acc h; simp
  | cons p rest ih =>
    intro acc h
    have hfresh : p.1 ∉ acc.map Prod.fst := by
      rw [List.map_append, List.nodup_append] at h
      intro hmem
      exact h.2.2 hmem (by simp)
    rw [List.foldl_cons, dSet_fresh p.2 hfresh, ih (acc ++ [p]) (by simpa using h)]
    simp

theorem serializeHostDict_foldl (add_details : Bool) (outs : List TaskOutcome) :
    ∀ acc : List (String × Value),
    outs.foldl (fun acc i =>
      match taskPairDict add_details i with
      | some p => dSet acc p.1 p.2
      | Option.none => acc) acc =
    (outs.filterMap (taskPairDict add_details)).foldl
      (fun a p => dSet a p.1 p.2) acc := by
  induction outs with
  | nil => intro acc; rfl
  | cons i rest ih =>
    intro acc
    rw [List.foldl_cons, List.filterMap_cons]
    cases hp : taskPairDict add_details i with
    | some p => simp [ih]
    | none => simp [ih]

theorem serializeHostDict_of_nodup {outs : List TaskOutcome}
    (h : ((outs.filterMap (taskPairDict false)).map Prod.fst).Nodup) :
    serializeHostDict false outs = outs.filterMap (taskPairDict false) := by
  rw [serializeHostDict, serializeHostDict_foldl,
    foldl_dSet_append _ [] (by simpa using h)]
  rfl

theorem serializeHostList_pairs (outs : List TaskOutcome) :
    (serializeHostList false outs).map (fun rec => (recName rec, recPayload rec)) =
      outs.filterMap (taskPairDict false) := by
  rw [serializeHostList, List.map_filterMap]
  exact List.filterMap_congr (fun i _ => task_pair_rec i)

theorem flatMap_map_dict {α : Type} (l : List (List (String × Value)))
    (f : List (String × Value) → α) :
    (l.map Value.dict).flatMap (fun r =>
      match r with
      | Value.dict rec => [f rec]
      | _ => []) = l.map f := by
  induction l with
  | nil => rfl
  | cons rec rest ih => simp [ih]

theorem triples_eq_aux : ∀ nr : AggRes,
    (∀ p ∈ nr, ((p.2.filterMap (taskPairDict false)).map Prod.fst).Nodup) →
    dictShapeTriples (.dict (nr.map (fun p =>
      (p.1, .dict (serializeHostDict false p.2))))) =
    listShapeTriples (.dict (nr.map (fun p =>
      (p.1, .list ((serializeHostList false p.2).map Value.dict))))) := by
  intro nr
  induction nr with
  | nil => intro hnd; rfl
  | cons p rest ih =>
    intro hnd
    have hp := hnd p (List.mem_cons_self p rest)
    simp only [List.map_cons, dictShapeTriples, listShapeTriples, List.flatMap_cons]
    have htail := ih (fun q hq => hnd q (List.mem_cons_of_mem p hq))
    refine congrArg₂ (· ++ ·) ?_ htail
    show (serializeHostDict false p.2).map (fun q => (p.1, q.1, q.2)) =
      ((serializeHostList false p.2).map Value.dict).flatMap (fun r =>
        match r with
        | Value.dict rec => [(p.1, recName rec, recPayload rec)]
        | _ => [])
    rw [serializeHostDict_of_nodup hp,
      flatMap_map_dict (serializeHostList false p.2)
        (fun rec => (p.1, recName rec, recPayload rec)),
      ← serializeHostList_pairs, List.map_map]
    rfl

/-- Claim C4 counterexample: when a host carries two non-skipped task
outcomes with the same name `"t"` and different results, the dict
shape keeps only the last one, so the triple (R1, t, "a") is in the
list shape but not in the dict shape — the two shapes do not contain
the same set of (host, task-name, result) triples. -/
theorem c4_cex_duplicate_names :
    (("R1", "t", Value.str "a") ∈ listShapeTriples (ResultSerializer
      [("R1", [⟨"t", .str "a", false, false, "", .none, []⟩,
               ⟨"t", .str "b", false, false, "", .none, []⟩])] false false)) ∧
    ¬ (("R1", "t", Value.str "a") ∈ dictShapeTriples (ResultSerializer
      [("R1", [⟨"t", .str "a", false, false, "", .none, []⟩,
               ⟨"t", .str "b", false, false, "", .none, []⟩])] false true)) := by
  constructor
  · rw [show listShapeTriples (ResultSerializer
      [("R1", [⟨"t", .str "a", false, false, "", .none, []⟩,
               ⟨"t", .str "b", false, false, "", .none, []⟩])] false false) =
      [("R1", "t", Value.str "a"), ("R1", "t", Value.str "b")] from rfl]
    exact List.mem_cons_self _ _
  · rw [show dictShapeTriples (ResultSerializer
      [("R1", [⟨"t", .str "a", false, false, "", .none, []⟩,
               ⟨"t", .str "b", false, false, "", .none, []⟩])] false true) =
      [("R1", "t", Value.str "b")] from rfl]
    intro hmem
    have h := List.mem_singleton.mp hmem
    simp only [Prod.mk.injEq] at h
    exact absurd (Value.str.inj h.2.2) (by decide)

/-- Claim C4 (amended): when each host's non-skipped tasks have
pairwise distinct names, the two output shapes of `ResultSerializer`
with `add_details=False` carry exactly the same (host, task-name,
payload) triples — in fact the same triple list — differing only in
container shape. -/
theorem c4_amended_same_triples (nr : AggRes)
    (hnd : ∀ p ∈ nr,
      ((p.2.filterMap (taskPairDict false)).map Prod.fst).Nodup) :
    dictShapeTriples (ResultSerializer nr false true) =
      listShapeTriples (ResultSerializer nr false false) ∧
    ∀ t, (t ∈ dictShapeTriples (ResultSerializer nr false true) ↔
          t ∈ listShapeTriples (ResultSerializer nr false false)) := by
  have heq := triples_eq_aux nr hnd
  exact ⟨heq, fun t => by rw [show dictShapeTriples (ResultSerializer nr false true) =
    listShapeTriples (ResultSerializer nr false false) from heq]⟩

/-- Witness for the amended C4: a two-host, distinct-names collection
where both shapes produce the identical triple list. -/
theorem c4_amended_same_triples_witness :
    (∀ p ∈ ([("R1", [⟨"t1", .str "a", false, false, "", .none, []⟩,
                     ⟨"t2", .str "b", false, false, "", .none, []⟩]),
             ("R2", [⟨"t1", .str "c", false, false, "", .none, []⟩])] : AggRes),
      ((p.2.filterMap (taskPairDict false)).map Prod.fst).Nodup) ∧
    dictShapeTriples (ResultSerializer
      [("R1", [⟨"t1", .str "a", false, false, "", .none, []⟩,
               ⟨"t2", .str "b", false, false, "", .none, []⟩]),
       ("R2", [⟨"t1", .str "c", false, false, "", .none, []⟩])] false true) =
    listShapeTriples (ResultSerializer
      [("R1", [⟨"t1", .str "a", false, false, "", .none, []⟩,
               ⟨"t2", .str "b", false, false, "", .none, []⟩]),
       ("R2", [⟨"t1", .str "c", false, false, "", .none, []⟩])] false false) :=
  ⟨by decide,
   (c4_amended_same_triples _ (by decide)).1⟩
